import Mathlib

/-
Verification development for the textlint core pipelines.

Shallow embedding of the code under src/node_modules/textlint/src/:
  - textlint-core.js   (TextlintCore: _lintByProcessor, _fixProcess, lintText,
    fixText, lintFile, fixFile, addProcessor)
  - textlint-engine.js (TextLintEngine: executeOnFiles, fixFiles,
    executeOnText, fixText)
  - fixer/textlint-fixer.js (not needed by the claims checked here)

Collaborators of this repository that are not under src/ (the Rule Execution
Task in task/, SourceCodeFixer.applyFixes in fixer/source-code-fixer,
getProcessorMatchExtension in util/proccesor-helper, findFiles in
util/find-util) are modelled from the spec; each such definition carries a
doc comment starting with "Modelled from the spec:".  External collaborators
(processors, rules, the file system, Node's path library) are modelled as
parameters or faithful models, as the spec treats them as external.

JavaScript strings are Lean Strings, JS arrays are Lists, the ordered
rule object (string-keyed, insertion ordered) is a List of named rules,
promises are the Except monad (resolve = ok, reject = error).
-/

namespace Textlint

/-- Opaque handle for a parsed tree produced by a processor's preProcess.
The tree is only ever handed back to rule visitors, so its representation
is irrelevant; we fix a carrier type. -/
abbrev Ast := String

/-- A fix edit: half-open range over the raw text plus the replacement text
(the `fix` payload of a textlint message). -/
structure FixEdit where
  range : Nat × Nat
  text : String
deriving Repr, DecidableEq

/-- A textlint message (Diagnostic): rule id, position, severity, message
text, and an optional fix edit. -/
structure TextLintMessage where
  ruleId : String
  message : String
  line : Nat
  column : Nat
  severity : Nat
  fix : Option FixEdit
deriving Repr, DecidableEq

/-- SourceCode (rule/source-code): raw text, parsed tree, extension and
optional file path, as constructed in _lintByProcessor and _fixProcess. -/
structure SourceCode where
  text : String
  ast : Ast
  ext : String
  filePath : Option String

/-- The value a processor's postProcess returns: `{ filePath, messages }`,
where either field may be absent (null and missing fields are both `none`). -/
structure PostProcessResult where
  filePath : Option String
  messages : Option (List TextLintMessage)

/-- A processor: its statically declared extensions and the
preProcess / postProcess pair returned by `processor.processor(ext)`. -/
structure Processor where
  availableExtensions : List String
  preProcess : String → Option String → Ast
  postProcess : List TextLintMessage → Option String → PostProcessResult

/-- A registered rule: its registration name (the key in the ordered rule
object), the optional `fixer` marker (`typeof rule.fixer !== "undefined"`
means fixer-capable), and its observable behavior: the diagnostics the
rule's visitor emits over one SourceCode, or the error it throws.  Rules
are external modules; the spec models a rule as a visitor factory whose
one traversal over the tree yields an ordered diagnostic stream or an
unhandled error, which is exactly this function. -/
structure Rule where
  name : String
  fixer : Option Unit
  run : SourceCode → Except String (List TextLintMessage)

/-- The error kinds a pipeline invocation can reject with. -/
inductive TextlintError where
  | processorNotFound : TextlintError
  | ruleExecutionFailure : String → TextlintError
  | contractViolation : TextlintError
  | missingExtension : TextlintError
deriving Repr, DecidableEq

/-- A lint result: `{ filePath, messages }` as resolved by _lintByProcessor. -/
structure LintResult where
  filePath : String
  messages : List TextLintMessage
deriving Repr, DecidableEq

/-- The construction arguments of a LinterTask / FixerTask that matter
observably: the rule set and the SourceCode (config objects are passed
through to rules and are absorbed into `Rule.run`). -/
structure TaskT where
  rules : List Rule
  sourceCode : SourceCode

/-- `new LinterTask({rules: this.rules, sourceCode})` — the lint pipeline
hands the entire registered rule set to its single task
(textlint-core.js lines 88-93). -/
def linterTask (rules : List Rule) (sourceCode : SourceCode) : TaskT :=
  { rules := rules, sourceCode := sourceCode }

/-- `new FixerTask({rules: {[ruleName]: rule}, sourceCode})` — the fix
pipeline hands a singleton rule set to each task
(textlint-core.js lines 200-206). -/
def fixerTask (r : Rule) (sourceCode : SourceCode) : TaskT :=
  { rules := [r], sourceCode := sourceCode }

/-- Modelled from the spec: the Rule Execution Task
(task/textlint-core-task, task/linter-task, task/fixer-task are not under
src/).  One traversal runs every rule's visitor over the tree in
rule-registration order; each handler may report diagnostics; an unhandled
error from any handler immediately becomes the terminal *failure*
notification and aborts the traversal (no *done*); otherwise all
diagnostics are emitted followed by *done*.  The message events pushed by
the task are the concatenated diagnostics; a failure is the error. -/
def runTask : List Rule → SourceCode → Except String (List TextLintMessage)
  | [], _ => .ok []
  | r :: rest, sourceCode =>
    match r.run sourceCode with
    | .error e => .error e
    | .ok ms =>
      match runTask rest sourceCode with
      | .error e => .error e
      | .ok more => .ok (ms ++ more)

/-- Start offset of a message's fix edit (0 when there is none; only used
on messages that carry a fix). -/
def fixStart (m : TextLintMessage) : Nat :=
  match m.fix with
  | some f => f.range.1
  | none => 0

/-- End offset of a message's fix edit. -/
def fixEnd (m : TextLintMessage) : Nat :=
  match m.fix with
  | some f => f.range.2
  | none => 0

/-- Replacement characters of a message's fix edit. -/
def fixReplacement (m : TextLintMessage) : List Char :=
  match m.fix with
  | some f => f.text.toList
  | none => []

/-- Insert a message into a list sorted ascending by fix start offset,
after all entries with a strictly smaller or equal start (stable). -/
def insertByStart (m : TextLintMessage) : List TextLintMessage → List TextLintMessage
  | [] => [m]
  | x :: xs =>
    if fixStart m ≤ fixStart x then m :: x :: xs else x :: insertByStart m xs

/-- Stable sort ascending by fix start offset. -/
def sortByStart (l : List TextLintMessage) : List TextLintMessage :=
  l.foldr insertByStart []

/-- The walk of the Fix Resolver: cursor plus output buffer over the
original characters; a fix starting before the cursor is rejected
(appended to the remaining list, cursor and buffer unchanged), otherwise
the gap and the replacement are appended and the cursor jumps to the fix
end.  Returns (buffer, cursor, applying, remaining-from-conflicts). -/
def applyFixesLoop (chars : List Char) :
    List TextLintMessage → Nat → List Char → List TextLintMessage →
    List TextLintMessage →
    (List Char × Nat × List TextLintMessage × List TextLintMessage)
  | [], cursor, buf, app, rem => (buf, cursor, app, rem)
  | m :: rest, cursor, buf, app, rem =>
    if fixStart m < cursor then
      applyFixesLoop chars rest cursor buf app (rem ++ [m])
    else
      applyFixesLoop chars rest (fixEnd m)
        (buf ++ (chars.drop cursor).take (fixStart m - cursor) ++ fixReplacement m)
        (app ++ [m]) rem

/-- The value SourceCodeFixer.applyFixes returns. -/
structure FixOutcome where
  fixed : Bool
  messages : List TextLintMessage
  applyingMessages : List TextLintMessage
  remainingMessages : List TextLintMessage
  output : String

/-- Modelled from the spec: SourceCodeFixer.applyFixes
(fixer/source-code-fixer is not under src/), §4.3 Fix Resolver.
Partition the diagnostics into those carrying a fix and those without
(the latter go straight to the remaining list; every diagnostic is copied
into `messages`); stable-sort the fixable ones ascending by start offset;
walk them greedily with a cursor, rejecting any fix starting before the
cursor; `fixed` is true exactly when some fix was applied. -/
def applyFixes (text : String) (messages : List TextLintMessage) : FixOutcome :=
  let withFix := messages.filter (fun m => m.fix.isSome)
  let withoutFix := messages.filter (fun m => m.fix.isNone)
  let chars := text.toList
  let walk := applyFixesLoop chars (sortByStart withFix) 0 [] [] []
  { fixed := !walk.2.2.1.isEmpty
    messages := messages
    applyingMessages := walk.2.2.1
    remainingMessages := withoutFix ++ walk.2.2.2
    output := (walk.1 ++ chars.drop walk.2.1).asString }

/-- Characters of the last path component: everything after the last
slash. -/
def basenameChars (p : String) : List Char :=
  p.toList.foldl (fun acc c => if c = '/' then [] else acc ++ [c]) []

/-- Index of the last dot in a character list, if any. -/
def lastDotIndex : List Char → Option Nat
  | [] => none
  | c :: rest =>
    match lastDotIndex rest with
    | some i => some (i + 1)
    | none => if c = '.' then some 0 else none

/-- Model of Node's `path.extname` (posix), an external library: the
substring of the last path component from its last dot to its end, or the
empty string when the component has no dot or its only leading character
is the dot (dotfiles have no extension).  Node additionally special-cases
components consisting solely of dots, which no path in scope touches. -/
def extname (p : String) : String :=
  let base := basenameChars p
  match lastDotIndex base with
  | none => ""
  | some i => if i = 0 then "" else (base.drop i).asString

/-- The TextlintCore state: the registered processors (most recently added
first) and the registered rules in registration order.  The constructor
seeds `processors` with the built-in markdown and text processors. -/
structure TextlintCore where
  processors : List Processor
  rules : List Rule

namespace TextlintCore

/-- `addProcessor` — `this.processors.unshift(new Processor(this.config))`:
the new processor is added at the front (textlint-core.js lines 38-41). -/
def addProcessor (core : TextlintCore) (p : Processor) : TextlintCore :=
  { core with processors := p :: core.processors }

/-- Modelled from the spec: getProcessorMatchExtension
(util/proccesor-helper is not under src/) selects the first registered
processor — the list is most-recently-added first — whose declared
extension set contains the target's extension; none match gives no
processor. -/
def getProcessorMatchExtension (processors : List Processor) (ext : String) :
    Option Processor :=
  processors.find? (fun p => p.availableExtensions.contains ext)

/-- The SourceCode built in _lintByProcessor (lines 81-87):
`preProcess(text, filePath)` plus `{text, ast, ext, filePath}`. -/
def lintSourceCode (proc : Processor) (text ext : String)
    (filePath : Option String) : SourceCode :=
  { text := text, ast := proc.preProcess text filePath, ext := ext,
    filePath := filePath }

/-- `_lintByProcessor` (textlint-core.js lines 76-112): assert the
processor exists, preProcess, build the SourceCode, run one LinterTask
over the entire rule set, reject on task error, postProcess the collected
messages, synthesize a placeholder filePath when the result carries none
(the source's literal spelling is `<Unkown...>`), and assert the result
carries truthy filePath and a messages field (modelled as
contractViolation on violation). -/
def lintByProcessor (proc? : Option Processor) (rules : List Rule)
    (text ext : String) (filePath : Option String) :
    Except TextlintError LintResult :=
  match proc? with
  | none => .error .processorNotFound
  | some proc =>
    let sourceCode := lintSourceCode proc text ext filePath
    let task := linterTask rules sourceCode
    match runTask task.rules task.sourceCode with
    | .error e => .error (.ruleExecutionFailure e)
    | .ok messages =>
      let result := proc.postProcess messages filePath
      let resultFilePath :=
        match result.filePath with
        | none => "<Unkown" ++ ext ++ ">"
        | some fp => fp
      if resultFilePath = "" then .error .contractViolation
      else
        match result.messages with
        | none => .error .contractViolation
        | some ms => .ok { filePath := resultFilePath, messages := ms }

/-- `lintText` (lines 121-124): pick the processor matching the extension,
lint with no filePath. -/
def lintText (core : TextlintCore) (text ext : String) :
    Except TextlintError LintResult :=
  lintByProcessor (getProcessorMatchExtension core.processors ext)
    core.rules text ext none

/-- `lintFile` (lines 143-149): extension from the path, content read from
the file system (modelled as the `content` argument), lint with the file
path attached.  `path.resolve` is abstracted as the identity on the given
path. -/
def lintFile (core : TextlintCore) (filePath content : String) :
    Except TextlintError LintResult :=
  let ext := extname filePath
  lintByProcessor (getProcessorMatchExtension core.processors ext)
    core.rules content ext (some filePath)

/-- One entry of the fix pipeline's step record: the rule set handed to
the FixerTask built in this step, the source text the step received and
the text it resolved with.  This mirrors the closure built per fixer rule
in `fixerProcessList` (lines 190-233); it is carried for verification and
does not feed back into the computation. -/
structure FixStepTrace where
  taskRules : List Rule
  inputText : String
  outputText : String

/-- The accumulator state of _fixProcess: the threaded text, the mutable
`resultFilePath`, the three message accumulators, and the step record. -/
structure FixProcessState where
  text : String
  resultFilePath : Option String
  applyingMessages : List TextLintMessage
  remainingMessages : List TextLintMessage
  originalMessages : List TextLintMessage
  trace : List FixStepTrace

/-- The SourceCode built per fix step (lines 193-198): note preProcess is
called without a filePath there — `preProcess(sourceText)`. -/
def fixSourceCode (proc : Processor) (filePath : Option String)
    (ext : String) (sourceText : String) : SourceCode :=
  { text := sourceText, ast := proc.preProcess sourceText none,
    ext := ext, filePath := filePath }

/-- One fixer rule's step of _fixProcess (the closure at lines 191-232):
build a fresh SourceCode over the current text, run a FixerTask whose rule
set is the singleton of this rule, reject on task error, postProcess the
messages (a post-process result without a messages field crashes the step;
modelled as contractViolation), apply the Fix Resolver, append the
applying / remaining / all messages to the accumulators, and resolve with
the patched text if fixed, else with the unchanged source text. -/
def fixerProcess (proc : Processor) (filePath : Option String) (ext : String)
    (r : Rule) (st : FixProcessState) : Except TextlintError FixProcessState :=
  let sourceText := st.text
  let newSourceCode := fixSourceCode proc filePath ext sourceText
  let task := fixerTask r newSourceCode
  match runTask task.rules task.sourceCode with
  | .error e => .error (.ruleExecutionFailure e)
  | .ok messages =>
    let result := proc.postProcess messages filePath
    match result.messages with
    | none => .error .contractViolation
    | some resultMessages =>
      let applied := applyFixes newSourceCode.text resultMessages
      let nextText := if !applied.fixed then sourceText else applied.output
      .ok { text := nextText
            resultFilePath := result.filePath
            applyingMessages := st.applyingMessages ++ applied.applyingMessages
            remainingMessages := st.remainingMessages ++ applied.remainingMessages
            originalMessages := st.originalMessages ++ applied.messages
            trace := st.trace ++
              [{ taskRules := task.rules, inputText := sourceText,
                 outputText := nextText }] }

/-- The promise chain `fixerProcessList.reduce(...)` (lines 235-239): the
steps run strictly sequentially, each receiving the previous step's
resolved text; a rejected step rejects the whole chain. -/
def runFixSteps (proc : Processor) (filePath : Option String) (ext : String) :
    List Rule → FixProcessState → Except TextlintError FixProcessState
  | [], st => .ok st
  | r :: rest, st =>
    match fixerProcess proc filePath ext r st with
    | .error e => .error e
    | .ok st' => runFixSteps proc filePath ext rest st'

/-- The fix result `{filePath, output, originalMessages, applyingMessages,
remainingMessages}` (lines 245-251), with the verification step record. -/
structure TextLintFixResult where
  filePath : Option String
  output : String
  originalMessages : List TextLintMessage
  applyingMessages : List TextLintMessage
  remainingMessages : List TextLintMessage
  trace : List FixStepTrace

/-- `_fixProcess` (textlint-core.js lines 175-253): keep only the rules
declaring fixer capability (`typeof rule.fixer !== "undefined"`), in
registration order; thread the text through their steps starting from the
input text; package the accumulators.  A missing processor crashes the
invocation (in the source, reading `.processor` of undefined), modelled
as processorNotFound. -/
def fixProcess (proc? : Option Processor) (rules : List Rule)
    (text ext : String) (filePath : Option String) :
    Except TextlintError TextLintFixResult :=
  match proc? with
  | none => .error .processorNotFound
  | some proc =>
    let fixerRules := rules.filter (fun r => r.fixer.isSome)
    let init : FixProcessState :=
      { text := text, resultFilePath := filePath, applyingMessages := [],
        remainingMessages := [], originalMessages := [], trace := [] }
    match runFixSteps proc filePath ext fixerRules init with
    | .error e => .error e
    | .ok st =>
      .ok { filePath := st.resultFilePath, output := st.text,
            originalMessages := st.originalMessages,
            applyingMessages := st.applyingMessages,
            remainingMessages := st.remainingMessages,
            trace := st.trace }

/-- `fixText` (lines 170-173). -/
def fixText (core : TextlintCore) (text ext : String) :
    Except TextlintError TextLintFixResult :=
  fixProcess (getProcessorMatchExtension core.processors ext)
    core.rules text ext none

/-- `fixFile` (lines 156-162): the content is read from the file system
(modelled as the `content` argument); the (non-absolute) filePath is
passed into _fixProcess. -/
def fixFile (core : TextlintCore) (filePath content : String) :
    Except TextlintError TextLintFixResult :=
  let ext := extname filePath
  fixProcess (getProcessorMatchExtension core.processors ext)
    core.rules content ext (some filePath)

end TextlintCore

/-- The TextLintEngine state (textlint-engine.js): the wrapped
TextlintCore and the available extensions collected from the config and
the registered processors. -/
structure TextLintEngine where
  textLint : TextlintCore
  availableExtensions : List String

namespace TextLintEngine

/-- Modelled from the spec: findFiles (util/find-util is not under src/)
expands the given file and directory names to the target files, filtered
by the available extensions; the engine executes "files that are filtered
by availableExtensions" (textlint-engine.js line 43).  Plain files are
modelled, so this keeps, in order, the files whose extension is
available. -/
def findFiles (files : List String) (availableExtensions : List String) :
    List String :=
  files.filter (fun f => availableExtensions.contains (extname f))

/-- `Promise.all`: resolves with the results in the positional order of
the input promises, independent of completion order; rejects when any
input rejects. -/
def promiseAll {α : Type} :
    List (Except TextlintError α) → Except TextlintError (List α)
  | [] => .ok []
  | x :: xs =>
    match x with
    | .error e => .error e
    | .ok a =>
      match promiseAll xs with
      | .error e => .error e
      | .ok rest => .ok (a :: rest)

/-- `const results = targetFiles.map(file => this.textLint.lintFile(file))`
(textlint-engine.js lines 216-219): one independent pipeline invocation
per target, in target order.  The file system is modelled as the
`readFile` argument. -/
def lintTargetResults (engine : TextLintEngine) (readFile : String → String)
    (files : List String) : List (Except TextlintError LintResult) :=
  (findFiles files engine.availableExtensions).map
    (fun file => engine.textLint.lintFile file (readFile file))

/-- `executeOnFiles` (lines 215-221): find the targets, lint each, gather
with Promise.all. -/
def executeOnFiles (engine : TextLintEngine) (readFile : String → String)
    (files : List String) : Except TextlintError (List LintResult) :=
  promiseAll (lintTargetResults engine readFile files)

/-- `const results = targetFiles.map(file => this.textLint.fixFile(file))`
(lines 247-250). -/
def fixTargetResults (engine : TextLintEngine) (readFile : String → String)
    (files : List String) :
    List (Except TextlintError TextlintCore.TextLintFixResult) :=
  (findFiles files engine.availableExtensions).map
    (fun file => engine.textLint.fixFile file (readFile file))

/-- `fixFiles` (lines 246-252). -/
def fixFiles (engine : TextLintEngine) (readFile : String → String)
    (files : List String) :
    Except TextlintError (List TextlintCore.TextLintFixResult) :=
  promiseAll (fixTargetResults engine readFile files)

/-- `executeOnText` (lines 230-239): when the ext argument starts with a
dot it is used as-is, otherwise it is treated as a path and its extension
is extracted; an empty resulting extension throws
"should specify the extension" (modelled as missingExtension); otherwise
the single lint result is wrapped in a one-element array. -/
def executeOnText (engine : TextLintEngine) (text ext : String) :
    Except TextlintError (List LintResult) :=
  let actualExt := if ext.toList.head? = some '.' then ext else extname ext
  if actualExt.length = 0 then .error .missingExtension
  else (engine.textLint.lintText text actualExt).map (fun result => [result])

/-- `fixText` (lines 261-270): same extension handling as executeOnText,
delegating to the core fix pipeline. -/
def fixText (engine : TextLintEngine) (text ext : String) :
    Except TextlintError (List TextlintCore.TextLintFixResult) :=
  let actualExt := if ext.toList.head? = some '.' then ext else extname ext
  if actualExt.length = 0 then .error .missingExtension
  else (engine.textLint.fixText text actualExt).map (fun result => [result])

end TextLintEngine

/-- Does every input text reach its step unchanged from the previous
step's output?  (The first step must receive the given text.) -/
def traceChained (t : String) : List TextlintCore.FixStepTrace → Bool
  | [] => true
  | s :: rest => (s.inputText == t) && traceChained s.outputText rest

/-- The text carried out of the last step (the given text when there is
no step). -/
def traceFinal (t : String) (tr : List TextlintCore.FixStepTrace) : String :=
  tr.foldl (fun _ s => s.outputText) t

/-! ### Concrete fixtures

A processor and a few external rules used to evaluate the theorems on
concrete inputs.  `procW` parses any text (the tree handle is the text
itself) and post-processes messages unchanged with the given file path. -/

/-- A processor handling `.txt` and `.md`, passing data through. -/
def procW : Processor :=
  { availableExtensions := [".txt", ".md"],
    preProcess := fun t _ => t,
    postProcess := fun msgs fp => { filePath := fp, messages := some msgs } }

/-- A message of rule A fixing `[0, 1)` to `"b"`. -/
def msgA : TextLintMessage :=
  { ruleId := "A", message := "m", line := 1, column := 1, severity := 2,
    fix := some { range := (0, 1), text := "b" } }

/-- A message of rule B fixing `[1, 2)` to `"c"`. -/
def msgB : TextLintMessage :=
  { ruleId := "B", message := "m", line := 1, column := 2, severity := 2,
    fix := some { range := (1, 2), text := "c" } }

/-- A fixer-capable rule always reporting `msgA`. -/
def ruleA : Rule := { name := "A", fixer := some (), run := fun _ => .ok [msgA] }

/-- A fixer-capable rule always reporting `msgB`. -/
def ruleB : Rule := { name := "B", fixer := some (), run := fun _ => .ok [msgB] }

/-- A rule with no fixer capability and no findings. -/
def ruleNoFix : Rule :=
  { name := "no-fix", fixer := none, run := fun _ => .ok [] }

/-- A rule whose handler throws. -/
def ruleBad : Rule :=
  { name := "bad", fixer := none, run := fun _ => .error "boom" }

/-- A registered rule set: two fixer-capable rules around one without. -/
def rulesW : List Rule := [ruleA, ruleNoFix, ruleB]

/-- A core with one processor and the sample rule set. -/
def coreW : TextlintCore := { processors := [procW], rules := rulesW }

/-- A core whose only registered rule has no fixer. -/
def coreNoFix : TextlintCore := { processors := [procW], rules := [ruleNoFix] }

/-- An engine over `coreW` accepting `.txt` targets. -/
def engineW : TextLintEngine :=
  { textLint := coreW, availableExtensions := [".txt"] }

/-- The fix pipeline state before any step on text `"aa"`. -/
def stW : TextlintCore.FixProcessState :=
  { text := "aa", resultFilePath := none, applyingMessages := [],
    remainingMessages := [], originalMessages := [], trace := [] }

/-- The fix pipeline state after rule A's step on `"aa"`. -/
def stW' : TextlintCore.FixProcessState :=
  { text := "ba", resultFilePath := none, applyingMessages := [msgA],
    remainingMessages := [], originalMessages := [msgA],
    trace := [{ taskRules := [ruleA], inputText := "aa", outputText := "ba" }] }

/-- The fix result of the sample rule set on `"aa"`: rule A rewrites it to
`"ba"`, then rule B rewrites that to `"bc"`. -/
def resW : TextlintCore.TextLintFixResult :=
  { filePath := none, output := "bc",
    originalMessages := [msgA, msgB],
    applyingMessages := [msgA, msgB],
    remainingMessages := [],
    trace := [{ taskRules := [ruleA], inputText := "aa", outputText := "ba" },
              { taskRules := [ruleB], inputText := "ba", outputText := "bc" }] }

/-! ### Helper lemmas -/

/-- Filtering twice with the same predicate filters once. -/
lemma filter_filter_self {α : Type} (p : α → Bool) :
    ∀ l : List α, (l.filter p).filter p = l.filter p := by
  intro l
  induction l with
  | nil => rfl
  | cons x xs ih =>
    cases h : p x <;> simp [List.filter_cons, h, ih]

/-- A rule set in which every rule lacks fixer capability has no
fixer-capable rule. -/
lemma filter_isSome_eq_nil (rules : List Rule)
    (h : rules.all (fun r => r.fixer.isNone) = true) :
    rules.filter (fun r => r.fixer.isSome) = [] := by
  induction rules with
  | nil => rfl
  | cons r rs ih =>
    simp only [List.all_cons, Bool.and_eq_true] at h
    obtain ⟨h1, h2⟩ := h
    have : r.fixer = none := Option.isNone_iff_eq_none.mp h1
    simp [List.filter_cons, this, ih h2]

/-- A successful fix step appends exactly one entry to the step record:
a singleton task over the received text, resolving with the step's new
text; nothing else of the record changes. -/
lemma fixerProcess_ok_trace (proc : Processor) (fp : Option String)
    (ext : String) (r : Rule) (st st' : TextlintCore.FixProcessState)
    (h : TextlintCore.fixerProcess proc fp ext r st = .ok st') :
    st'.trace = st.trace ++
      [{ taskRules := [r], inputText := st.text, outputText := st'.text }] := by
  simp only [TextlintCore.fixerProcess, fixerTask] at h
  split at h
  · exact absurd h (by simp)
  · split at h
    · exact absurd h (by simp)
    · cases h
      rfl

/-- A successful run of the fix steps extends the step record by one
correctly chained entry per rule, in rule order, ending at the final
text. -/
lemma runFixSteps_ok_trace (proc : Processor) (fp : Option String)
    (ext : String) :
    ∀ (rs : List Rule) (st st' : TextlintCore.FixProcessState),
    TextlintCore.runFixSteps proc fp ext rs st = .ok st' →
    ∃ tr, st'.trace = st.trace ++ tr
      ∧ tr.map (fun s => s.taskRules.map Rule.name) = rs.map (fun r => [r.name])
      ∧ traceChained st.text tr = true
      ∧ st'.text = traceFinal st.text tr := by
  intro rs
  induction rs with
  | nil =>
    intro st st' h
    simp only [TextlintCore.runFixSteps] at h
    cases h
    exact ⟨[], by simp, rfl, rfl, rfl⟩
  | cons r rest ih =>
    intro st st' h
    simp only [TextlintCore.runFixSteps] at h
    cases hstep : TextlintCore.fixerProcess proc fp ext r st with
    | error e => rw [hstep] at h; exact absurd h (by simp)
    | ok st1 =>
      rw [hstep] at h
      have htr := fixerProcess_ok_trace proc fp ext r st st1 hstep
      obtain ⟨tr1, e1, e2, e3, e4⟩ := ih st1 st' h
      refine ⟨{ taskRules := [r], inputText := st.text,
                outputText := st1.text } :: tr1, ?_, ?_, ?_, ?_⟩
      · rw [e1, htr]
        simp
      · simp [e2]
      · simp [traceChained, e3]
      · rw [e4]
        rfl

/-- Every entry a successful run appends to the step record carries a
one-rule task. -/
lemma runFixSteps_tasks_single (proc : Processor) (fp : Option String)
    (ext : String) :
    ∀ (rs : List Rule) (st st' : TextlintCore.FixProcessState),
    TextlintCore.runFixSteps proc fp ext rs st = .ok st' →
    st.trace.all (fun s => s.taskRules.length == 1) = true →
    st'.trace.all (fun s => s.taskRules.length == 1) = true := by
  intro rs
  induction rs with
  | nil =>
    intro st st' h hall
    simp only [TextlintCore.runFixSteps] at h
    cases h
    exact hall
  | cons r rest ih =>
    intro st st' h hall
    simp only [TextlintCore.runFixSteps] at h
    cases hstep : TextlintCore.fixerProcess proc fp ext r st with
    | error e => rw [hstep] at h; exact absurd h (by simp)
    | ok st1 =>
      rw [hstep] at h
      refine ih st1 st' h ?_
      rw [fixerProcess_ok_trace proc fp ext r st st1 hstep]
      simp [hall]

/-- `Promise.all` resolves exactly when every input resolved, with the
values in input position order. -/
lemma promiseAll_ok {α : Type} :
    ∀ (l : List (Except TextlintError α)) (res : List α),
    TextLintEngine.promiseAll l = .ok res → l = res.map Except.ok := by
  intro l
  induction l with
  | nil =>
    intro res h
    simp only [TextLintEngine.promiseAll] at h
    cases h
    rfl
  | cons x xs ih =>
    intro res h
    simp only [TextLintEngine.promiseAll] at h
    cases x with
    | error e => exact absurd h (by simp)
    | ok a =>
      cases hrest : TextLintEngine.promiseAll xs with
      | error e => rw [hrest] at h; exact absurd h (by simp)
      | ok rest =>
        rw [hrest] at h
        cases h
        simp [ih rest hrest]

/-- The synthesized placeholder file path is never the empty string. -/
lemma placeholder_ne_empty (ext : String) :
    ("<Unkown" ++ ext ++ ">" : String) ≠ "" := by
  intro h
  have hlen := congrArg String.length h
  simp [String.length_append] at hlen
  exact absurd hlen.1.1 (by decide)

/-! ### Claim theorems -/

/-- C1: for every fix invocation, only rules declaring fixer capability
participate (dropping the non-fixer rules changes nothing), and on
success the step record shows each participating rule processed exactly
once, in registration order, as a single left-to-right pass threading the
text: step i + 1 receives step i's resolved text and the final output is
the last step's text.  Since each rule owns exactly one step, a violation
introduced by a later rule's fix is never re-checked by an earlier rule
in the same invocation. -/
theorem fix_single_pass_over_fixer_rules :
    (∀ (proc? : Option Processor) (rules : List Rule) (text ext : String)
       (fp : Option String),
       TextlintCore.fixProcess proc? rules text ext fp
         = TextlintCore.fixProcess proc?
             (rules.filter (fun r => r.fixer.isSome)) text ext fp)
    ∧ (∀ (proc : Processor) (rules : List Rule) (text ext : String)
         (fp : Option String) (res : TextlintCore.TextLintFixResult),
       TextlintCore.fixProcess (some proc) rules text ext fp = .ok res →
       res.trace.map (fun s => s.taskRules.map Rule.name)
           = (rules.filter (fun r => r.fixer.isSome)).map (fun r => [r.name])
         ∧ traceChained text res.trace = true
         ∧ res.output = traceFinal text res.trace) := by
  constructor
  · intro proc? rules text ext fp
    cases proc? with
    | none => rfl
    | some proc =>
      simp only [TextlintCore.fixProcess, filter_filter_self]
  · intro proc rules text ext fp res h
    simp only [TextlintCore.fixProcess] at h
    cases hrun : TextlintCore.runFixSteps proc fp ext
        (rules.filter (fun r => r.fixer.isSome))
        { text := text, resultFilePath := fp, applyingMessages := [],
          remainingMessages := [], originalMessages := [], trace := [] } with
    | error e => rw [hrun] at h; exact absurd h (by simp)
    | ok st =>
      rw [hrun] at h
      cases h
      obtain ⟨tr, e1, e2, e3, e4⟩ :=
        runFixSteps_ok_trace proc fp ext _ _ _ hrun
      simp only [List.nil_append] at e1
      subst e1
      exact ⟨e2, e3, e4⟩

/-- C1 witness: on text `"aa"` with rules `[A, no-fix, B]` the steps are
exactly A then B; A receives `"aa"` and resolves `"ba"`, B receives
`"ba"` and resolves `"bc"`, the final output. -/
theorem fix_single_pass_over_fixer_rules_witness :
    resW.trace.map (fun s => s.taskRules.map Rule.name)
        = (rulesW.filter (fun r => r.fixer.isSome)).map (fun r => [r.name])
      ∧ traceChained "aa" resW.trace = true
      ∧ resW.output = traceFinal "aa" resW.trace :=
  fix_single_pass_over_fixer_rules.2 procW rulesW "aa" ".txt" none resW rfl

/-- C6: the lint pipeline's single task carries the entire registered
rule set, while every task the fix pipeline constructs carries exactly
one rule — by construction of the task values, and, for any successful
fix invocation, every entry of its step record. -/
theorem fix_tasks_single_rule_lint_task_full :
    (∀ (rules : List Rule) (sc : SourceCode), (linterTask rules sc).rules = rules)
    ∧ (∀ (r : Rule) (sc : SourceCode), (fixerTask r sc).rules = [r])
    ∧ (∀ (proc : Processor) (rules : List Rule) (text ext : String)
         (fp : Option String) (res : TextlintCore.TextLintFixResult),
       TextlintCore.fixProcess (some proc) rules text ext fp = .ok res →
       res.trace.all (fun s => s.taskRules.length == 1) = true) := by
  refine ⟨fun _ _ => rfl, fun _ _ => rfl, ?_⟩
  intro proc rules text ext fp res h
  simp only [TextlintCore.fixProcess] at h
  cases hrun : TextlintCore.runFixSteps proc fp ext
      (rules.filter (fun r => r.fixer.isSome))
      { text := text, resultFilePath := fp, applyingMessages := [],
        remainingMessages := [], originalMessages := [], trace := [] } with
  | error e => rw [hrun] at h; exact absurd h (by simp)
  | ok st =>
    rw [hrun] at h
    cases h
    exact runFixSteps_tasks_single proc fp ext _ _ _ hrun rfl

/-- C6 witness: both steps of the sample fix run carry a one-rule task. -/
theorem fix_tasks_single_rule_witness :
    resW.trace.all (fun s => s.taskRules.length == 1) = true :=
  fix_tasks_single_rule_lint_task_full.2.2 procW rulesW "aa" ".txt" none resW rfl

/-- C10: when no registered rule declares fixer capability, the fix
pipeline is the identity on text and produces no messages: this holds for
_fixProcess with any processor, and for fixText / fixFile through the
matched processor. -/
theorem fix_without_fixer_rules_identity :
    (∀ (proc : Processor) (rules : List Rule) (text ext : String)
       (fp : Option String),
       rules.all (fun r => r.fixer.isNone) = true →
       TextlintCore.fixProcess (some proc) rules text ext fp
         = .ok { filePath := fp, output := text, originalMessages := [],
                 applyingMessages := [], remainingMessages := [], trace := [] })
    ∧ (∀ (core : TextlintCore) (text ext : String) (proc : Processor),
       TextlintCore.getProcessorMatchExtension core.processors ext = some proc →
       core.rules.all (fun r => r.fixer.isNone) = true →
       core.fixText text ext
         = .ok { filePath := none, output := text, originalMessages := [],
                 applyingMessages := [], remainingMessages := [], trace := [] })
    ∧ (∀ (core : TextlintCore) (filePath content : String) (proc : Processor),
       TextlintCore.getProcessorMatchExtension core.processors
           (extname filePath) = some proc →
       core.rules.all (fun r => r.fixer.isNone) = true →
       core.fixFile filePath content
         = .ok { filePath := some filePath, output := content,
                 originalMessages := [], applyingMessages := [],
                 remainingMessages := [], trace := [] }) := by
  have base : ∀ (proc : Processor) (rules : List Rule) (text ext : String)
      (fp : Option String),
      rules.all (fun r => r.fixer.isNone) = true →
      TextlintCore.fixProcess (some proc) rules text ext fp
        = .ok { filePath := fp, output := text, originalMessages := [],
                applyingMessages := [], remainingMessages := [], trace := [] } := by
    intro proc rules text ext fp h
    simp only [TextlintCore.fixProcess, filter_isSome_eq_nil rules h,
      TextlintCore.runFixSteps]
  refine ⟨base, ?_, ?_⟩
  · intro core text ext proc hproc h
    simp only [TextlintCore.fixText, hproc]
    exact base proc core.rules text ext none h
  · intro core filePath content proc hproc h
    simp only [TextlintCore.fixFile, hproc]
    exact base proc core.rules content (extname filePath) (some filePath) h

/-- C10 witness: with the single non-fixer rule registered, fixing
`"aa"` returns `"aa"` with all message lists empty. -/
theorem fix_without_fixer_rules_identity_witness :
    TextlintCore.fixText coreNoFix "aa" ".txt"
      = .ok { filePath := none, output := "aa", originalMessages := [],
              applyingMessages := [], remainingMessages := [], trace := [] } :=
  fix_without_fixer_rules_identity.2.1 coreNoFix "aa" ".txt" procW rfl rfl

/-- C2: in every per-rule fix step, when the Fix Resolver reports no
change the step resolves with exactly the text it received, and when it
reports a change the step resolves with the Resolver's patched output;
either way the promise chain hands that resolved state to the next
rule's step. -/
theorem fix_step_threads_text :
    ∀ (proc : Processor) (fp : Option String) (ext : String) (r : Rule)
      (st st' : TextlintCore.FixProcessState)
      (msgs pmsgs : List TextLintMessage) (rest : List Rule),
    runTask [r] (TextlintCore.fixSourceCode proc fp ext st.text) = .ok msgs →
    (proc.postProcess msgs fp).messages = some pmsgs →
    TextlintCore.fixerProcess proc fp ext r st = .ok st' →
    ((applyFixes st.text pmsgs).fixed = false → st'.text = st.text)
      ∧ ((applyFixes st.text pmsgs).fixed = true →
         st'.text = (applyFixes st.text pmsgs).output)
      ∧ TextlintCore.runFixSteps proc fp ext (r :: rest) st
          = TextlintCore.runFixSteps proc fp ext rest st' := by
  intro proc fp ext r st st' msgs pmsgs rest h1 h2 h3
  have hnext : TextlintCore.runFixSteps proc fp ext (r :: rest) st
      = TextlintCore.runFixSteps proc fp ext rest st' := by
    simp only [TextlintCore.runFixSteps, h3]
  simp only [TextlintCore.fixerProcess, fixerTask] at h3
  simp only [h1, h2] at h3
  cases h3
  refine ⟨?_, ?_, hnext⟩
  · intro hfix
    simp [TextlintCore.fixSourceCode, hfix]
  · intro hfix
    simp [TextlintCore.fixSourceCode, hfix]

/-- C2 witness: rule A's step on `"aa"` reports a change
(`fixed = true`), resolves with the patched `"ba"`, and the chain
continues from that state. -/
theorem fix_step_threads_text_witness :
    (((applyFixes stW.text [msgA]).fixed = false → stW'.text = stW.text)
      ∧ ((applyFixes stW.text [msgA]).fixed = true →
         stW'.text = (applyFixes stW.text [msgA]).output)
      ∧ TextlintCore.runFixSteps procW none ".txt" [ruleA, ruleB] stW
          = TextlintCore.runFixSteps procW none ".txt" [ruleB] stW') :=
  fix_step_threads_text procW none ".txt" ruleA stW stW' [msgA] [msgA]
    [ruleB] rfl rfl rfl

/-- C3: processor selection.  `addProcessor` registers at the front, so
later-added processors are checked first; selection over a non-empty list
takes the head when its declared extension set contains the target's
extension and otherwise recurses (first match wins); when no processor
matches, both the lint and the fix invocation fail with ProcessorNotFound
and return no result; when one matches, the invocation runs through
exactly that processor. -/
theorem processor_selection_first_match :
    (∀ (core : TextlintCore) (p : Processor),
       (core.addProcessor p).processors = p :: core.processors)
    ∧ (∀ (p : Processor) (ps : List Processor) (ext : String),
       TextlintCore.getProcessorMatchExtension (p :: ps) ext
         = if p.availableExtensions.contains ext then some p
           else TextlintCore.getProcessorMatchExtension ps ext)
    ∧ (∀ (core : TextlintCore) (text ext : String),
       TextlintCore.getProcessorMatchExtension core.processors ext = none →
       core.lintText text ext = .error .processorNotFound
         ∧ core.fixText text ext = .error .processorNotFound)
    ∧ (∀ (core : TextlintCore) (text ext : String) (p : Processor),
       TextlintCore.getProcessorMatchExtension core.processors ext = some p →
       core.lintText text ext
           = TextlintCore.lintByProcessor (some p) core.rules text ext none
         ∧ core.fixText text ext
           = TextlintCore.fixProcess (some p) core.rules text ext none) := by
  refine ⟨fun _ _ => rfl, ?_, ?_, ?_⟩
  · intro p ps ext
    simp only [TextlintCore.getProcessorMatchExtension, List.find?]
    cases h : p.availableExtensions.contains ext <;> simp [h]
  · intro core text ext h
    constructor
    · simp only [TextlintCore.lintText, h, TextlintCore.lintByProcessor]
    · simp only [TextlintCore.fixText, h, TextlintCore.fixProcess]
  · intro core text ext p h
    constructor
    · simp only [TextlintCore.lintText, h]
    · simp only [TextlintCore.fixText, h]

/-- C3 witness: no registered processor declares `.xyz`, so linting and
fixing a `.xyz` target both fail with ProcessorNotFound. -/
theorem processor_selection_first_match_witness :
    TextlintCore.lintText coreW "t" ".xyz" = .error .processorNotFound
      ∧ TextlintCore.fixText coreW "t" ".xyz" = .error .processorNotFound :=
  processor_selection_first_match.2.2.1 coreW "t" ".xyz" rfl

/-- C4: every resolved lint result carries a non-empty filePath; when the
post-process result carries no filePath, it is synthesized from the
extension as the placeholder `"<Unkown" ++ ext ++ ">"` (the source's
literal spelling of the `<Unknown.ext>`-style placeholder); a
post-process result with no messages field fails the asserted contract
(ContractViolation). -/
theorem lint_result_filePath_synthesized :
    (∀ (proc : Processor) (rules : List Rule) (text ext : String)
       (fp : Option String) (msgs pmsgs : List TextLintMessage),
       runTask rules (TextlintCore.lintSourceCode proc text ext fp) = .ok msgs →
       (proc.postProcess msgs fp).filePath = none →
       (proc.postProcess msgs fp).messages = some pmsgs →
       TextlintCore.lintByProcessor (some proc) rules text ext fp
         = .ok { filePath := "<Unkown" ++ ext ++ ">", messages := pmsgs })
    ∧ (∀ (proc : Processor) (rules : List Rule) (text ext : String)
         (fp : Option String) (msgs : List TextLintMessage),
       runTask rules (TextlintCore.lintSourceCode proc text ext fp) = .ok msgs →
       (proc.postProcess msgs fp).messages = none →
       TextlintCore.lintByProcessor (some proc) rules text ext fp
         = .error .contractViolation)
    ∧ (∀ (proc? : Option Processor) (rules : List Rule) (text ext : String)
         (fp : Option String) (r : LintResult),
       TextlintCore.lintByProcessor proc? rules text ext fp = .ok r →
       r.filePath ≠ "") := by
  refine ⟨?_, ?_, ?_⟩
  · intro proc rules text ext fp msgs pmsgs h1 h2 h3
    simp only [TextlintCore.lintByProcessor, linterTask]
    rw [h1]
    simp only [h2, h3]
    simp [placeholder_ne_empty ext]
  · intro proc rules text ext fp msgs h1 h2
    simp only [TextlintCore.lintByProcessor, linterTask]
    rw [h1]
    simp only [h2]
    split <;> rfl
  · intro proc? rules text ext fp r h
    cases proc? with
    | none => exact absurd h (by simp [TextlintCore.lintByProcessor])
    | some proc =>
      simp only [TextlintCore.lintByProcessor, linterTask] at h
      cases hrun : runTask rules (TextlintCore.lintSourceCode proc text ext fp) with
      | error e =>
        simp only [hrun] at h
        exact Except.noConfusion h
      | ok msgs =>
        simp only [hrun] at h
        cases hfp : (proc.postProcess msgs fp).filePath with
        | none =>
          simp only [hfp] at h
          rw [if_neg (placeholder_ne_empty ext)] at h
          cases hm : (proc.postProcess msgs fp).messages with
          | none => exact Except.noConfusion (hm ▸ h)
          | some ms =>
            simp only [hm] at h
            cases h
            exact placeholder_ne_empty ext
        | some fp' =>
          simp only [hfp] at h
          by_cases hempty : fp' = ""
          · rw [if_pos hempty] at h
            exact Except.noConfusion h
          · rw [if_neg hempty] at h
            cases hm : (proc.postProcess msgs fp).messages with
            | none => exact Except.noConfusion (hm ▸ h)
            | some ms =>
              simp only [hm] at h
              cases h
              exact hempty

/-- C4 witness: `procW` hands back no filePath for an in-memory lint, so
the resolved result carries the synthesized `<Unkown.txt>`. -/
theorem lint_result_filePath_synthesized_witness :
    TextlintCore.lintByProcessor (some procW) [ruleA] "aa" ".txt" none
      = .ok { filePath := "<Unkown.txt>", messages := [msgA] } :=
  lint_result_filePath_synthesized.1 procW [ruleA] "aa" ".txt" none
    [msgA] [msgA] rfl rfl rfl

/-- C5: a task failure (a rule handler's unhandled error) rejects the
pipeline invocation for that target only: the lint invocation rejects
with the underlying error and yields no result; a failing fix step
rejects the fix invocation with the underlying error; the step is not
retried (the error is the chain's final state); and in the multi-target
batch each target's pipeline outcome depends only on that target, so
other targets are unaffected. -/
theorem task_failure_rejects_target_only :
    (∀ (proc : Processor) (rules : List Rule) (text ext : String)
       (fp : Option String) (e : String),
       runTask rules (TextlintCore.lintSourceCode proc text ext fp) = .error e →
       TextlintCore.lintByProcessor (some proc) rules text ext fp
         = .error (.ruleExecutionFailure e))
    ∧ (∀ (proc : Processor) (fp : Option String) (ext : String)
         (rs1 : List Rule) (r : Rule) (rs2 : List Rule)
         (st st' : TextlintCore.FixProcessState) (e : TextlintError),
       TextlintCore.runFixSteps proc fp ext rs1 st = .ok st' →
       TextlintCore.fixerProcess proc fp ext r st' = .error e →
       TextlintCore.runFixSteps proc fp ext (rs1 ++ r :: rs2) st = .error e)
    ∧ (∀ (engine : TextLintEngine) (rf : String → String)
         (files : List String) (i : Nat),
       (TextLintEngine.lintTargetResults engine rf files)[i]?
         = ((TextLintEngine.findFiles files engine.availableExtensions)[i]?).map
             (fun file => engine.textLint.lintFile file (rf file)))
    ∧ (∀ (engine : TextLintEngine) (rf rf' : String → String)
         (files : List String) (i : Nat) (file : String),
       (TextLintEngine.findFiles files engine.availableExtensions)[i]?
         = some file →
       rf file = rf' file →
       (TextLintEngine.lintTargetResults engine rf files)[i]?
         = (TextLintEngine.lintTargetResults engine rf' files)[i]?) := by
  have hget : ∀ (engine : TextLintEngine) (rf : String → String)
      (files : List String) (i : Nat),
      (TextLintEngine.lintTargetResults engine rf files)[i]?
        = ((TextLintEngine.findFiles files engine.availableExtensions)[i]?).map
            (fun file => engine.textLint.lintFile file (rf file)) := by
    intro engine rf files i
    simp [TextLintEngine.lintTargetResults, List.getElem?_map]
  refine ⟨?_, ?_, hget, ?_⟩
  · intro proc rules text ext fp e h
    simp only [TextlintCore.lintByProcessor, linterTask]
    rw [h]
  · intro proc fp ext rs1 r rs2 st st' e h1 h2
    induction rs1 generalizing st with
    | nil =>
      simp only [TextlintCore.runFixSteps] at h1
      cases h1
      simp only [List.nil_append, TextlintCore.runFixSteps, h2]
    | cons x xs ih =>
      simp only [TextlintCore.runFixSteps] at h1 ⊢
      cases hstep : TextlintCore.fixerProcess proc fp ext x st with
      | error e' => rw [hstep] at h1; exact absurd h1 (by simp)
      | ok st1 =>
        rw [hstep] at h1
        exact ih st1 h1
  · intro engine rf rf' files i file hfile hsame
    rw [hget engine rf files i, hget engine rf' files i, hfile]
    simp [hsame]

/-- C5 witness: a rule whose handler throws `"boom"` makes the lint
invocation reject with exactly that error. -/
theorem task_failure_rejects_target_only_witness :
    TextlintCore.lintByProcessor (some procW) [ruleBad] "t" ".txt" none
      = .error (.ruleExecutionFailure "boom") :=
  task_failure_rejects_target_only.1 procW [ruleBad] "t" ".txt" none "boom" rfl

/-- C7: when the multi-target operations resolve, the per-target pipeline
invocations, taken in input target order, are exactly the resolved
results in output order: the result sequence preserves the target order
(completion order cannot reorder `Promise.all`'s positional collection). -/
theorem multi_target_preserves_order :
    (∀ (engine : TextLintEngine) (rf : String → String) (files : List String)
       (res : List LintResult),
       TextLintEngine.executeOnFiles engine rf files = .ok res →
       TextLintEngine.lintTargetResults engine rf files = res.map Except.ok)
    ∧ (∀ (engine : TextLintEngine) (rf : String → String) (files : List String)
         (res : List TextlintCore.TextLintFixResult),
       TextLintEngine.fixFiles engine rf files = .ok res →
       TextLintEngine.fixTargetResults engine rf files = res.map Except.ok) := by
  constructor
  · intro engine rf files res h
    exact promiseAll_ok _ res h
  · intro engine rf files res h
    exact promiseAll_ok _ res h

/-- The lint result of `coreW` on target `a.txt` with content `"aa"`. -/
def lintResA : LintResult := { filePath := "a.txt", messages := [msgA, msgB] }

/-- The lint result of `coreW` on target `c.txt` with content `"aa"`. -/
def lintResC : LintResult := { filePath := "c.txt", messages := [msgA, msgB] }

/-- C7 witness: over targets `[a.txt, b.md, c.txt]` (only the two `.txt`
files are found) the resolved results are the two targets' lint results
in input order. -/
theorem multi_target_preserves_order_witness :
    TextLintEngine.lintTargetResults engineW (fun _ => "aa")
        ["a.txt", "b.md", "c.txt"]
      = [lintResA, lintResC].map Except.ok :=
  multi_target_preserves_order.1 engineW (fun _ => "aa")
    ["a.txt", "b.md", "c.txt"] [lintResA, lintResC] rfl

/-- C8: the lint pipeline is deterministic: two runs on equal inputs
(same registered rules, processors and configuration — the core state —
same text and same extension) produce equal results, diagnostic order
included. -/
theorem lint_pipeline_deterministic :
    ∀ (core core' : TextlintCore) (text text' ext ext' : String),
    core = core' → text = text' → ext = ext' →
    TextlintCore.lintText core text ext
      = TextlintCore.lintText core' text' ext' := by
  intro core core' text text' ext ext' h1 h2 h3
  subst h1
  subst h2
  subst h3
  rfl

/-- C8 witness: two runs of the sample core on `"aa"` agree. -/
theorem lint_pipeline_deterministic_witness :
    TextlintCore.lintText coreW "aa" ".txt"
      = TextlintCore.lintText coreW "aa" ".txt" :=
  lint_pipeline_deterministic coreW coreW "aa" "aa" ".txt" ".txt" rfl rfl rfl

/-- C9: executeOnText and fixText throw "should specify the extension"
exactly as claimed: when the ext argument does not start with `.` and no
extension can be extracted from it as a path, both calls fail with that
error; when it starts with `.`, both calls proceed past the check,
delegating to the core pipeline on that extension. -/
theorem text_api_requires_extension :
    (∀ (engine : TextLintEngine) (text ext : String),
       ext.toList.head? ≠ some '.' → extname ext = "" →
       TextLintEngine.executeOnText engine text ext = .error .missingExtension
         ∧ TextLintEngine.fixText engine text ext = .error .missingExtension)
    ∧ (∀ (engine : TextLintEngine) (text ext : String),
       ext.toList.head? = some '.' →
       TextLintEngine.executeOnText engine text ext
           = (engine.textLint.lintText text ext).map (fun result => [result])
         ∧ TextLintEngine.fixText engine text ext
           = (engine.textLint.fixText text ext).map (fun result => [result])) := by
  constructor
  · intro engine text ext h1 h2
    constructor
    · simp only [TextLintEngine.executeOnText, if_neg h1, h2]
      rfl
    · simp only [TextLintEngine.fixText, if_neg h1, h2]
      rfl
  · intro engine text ext h1
    have hne : ¬ ext.length = 0 := by
      cases ext with
      | mk data =>
        cases data with
        | nil => exact absurd h1 (by simp [String.toList])
        | cons c cs => simp [String.length]
    constructor
    · simp only [TextLintEngine.executeOnText, if_pos h1, if_neg hne]
    · simp only [TextLintEngine.fixText, if_pos h1, if_neg hne]

/-- C9 witness: ext `"txt"` (no leading dot, no extractable extension)
makes both text APIs fail with the missing-extension error. -/
theorem text_api_requires_extension_witness :
    TextLintEngine.executeOnText engineW "t" "txt" = .error .missingExtension
      ∧ TextLintEngine.fixText engineW "t" "txt" = .error .missingExtension :=
  text_api_requires_extension.1 engineW "t" "txt" (by decide) rfl

end Textlint
